import Mathlib

set_option linter.all false

namespace XPipe

/-- A connection record as returned by the XPipe API: `connection` is the
opaque identifier (UUID), `name` the hierarchical display name as a list of
path segments, `category` the tag set, `type` the type discriminator. -/
structure Connection where
  connection : String
  name : List String
  category : List String
  type : String
deriving DecidableEq

/-- The match filter from `resolve_connection_name` (cli.py line 16):
`x["name"] and x["name"][-1] == name`.  A Python list is truthy iff
non-empty, and `[-1]` of a non-empty list is its last element. -/
def connMatches (nm : String) (x : Connection) : Bool :=
  (!x.name.isEmpty) && (x.name.getLast? == some nm)

/-- Stable insertion of `x` before the first element whose key
(`len(x["name"])`) is not smaller.  Together with `pySortedByLen` this
models Python's `sorted(..., key=lambda x: len(x["name"]))`, which is
specified to be a stable sort by that key (stable-sort output is uniquely
determined by the key, so any stable sort is a faithful model). -/
def insertByLen (x : Connection) : List Connection → List Connection
  | [] => [x]
  | y :: ys =>
    if x.name.length ≤ y.name.length then x :: y :: ys else y :: insertByLen x ys

/-- Stable sort by `len(x["name"])`, modelling `sorted(...)` at cli.py line 16. -/
def pySortedByLen : List Connection → List Connection
  | [] => []
  | x :: xs => insertByLen x (pySortedByLen xs)

example : pySortedByLen
    [⟨"X", ["a","b"], [], "ssh"⟩, ⟨"Y", ["b"], [], "ssh"⟩]
    = [⟨"Y", ["b"], [], "ssh"⟩, ⟨"X", ["a","b"], [], "ssh"⟩] := by decide

/-- Exceptions that the modelled Python code can raise.  `indexError` is the
`IndexError` from `[0]` on an empty list, `valueError` covers failed tuple
unpacking (`rsplit` with no separator) and failed `int(...)` parses, and
`transport n` stands for an arbitrary exception raised by the API client /
HTTP layer (the parameter `n` distinguishes different failures). -/
inductive Exc where
  | indexError
  | valueError
  | transport (n : Nat)
deriving DecidableEq

/-- How a modelled CLI command invocation ends: normal return, `exit(code)`,
or an uncaught Python exception propagating out. -/
inductive Outcome where
  | ok
  | exited (code : Nat)
  | raised (e : Exc)
deriving DecidableEq

/-- Observable events of one CLI invocation, in program order.  A call event
is recorded when the call is made, whether or not the call then raises. -/
inductive Ev where
  | queryEmpty
  | queryAll
  | shellStart (conn : String)
  | shellExec (conn cmd : String)
  | fsRead (conn path : String)
  | setTotal (n : Int)
  | update (n : Nat)
  | write (chunk : List Nat)
  | shellStop (conn : String)
  | fsBlob
  | fsWrite (conn blob path : String)
deriving DecidableEq

/-- Result of `client.shell_exec`: a dict with stdout/stderr/exitCode. -/
structure ExecResult where
  stdout : String
  stderr : String
  exitCode : Int
deriving DecidableEq

/-- The HTTP response returned by `client._fs_read`: the optional
`content-length` header (verbatim header string when present), the byte
chunks that `iter_content(1024)` yields, and an optional exception raised
by the iterator after the listed chunks were delivered (a transport failure
mid-stream). -/
structure Resp where
  contentLength : Option String
  chunks : List (List Nat)
  streamErr : Option Exc
deriving DecidableEq

/-- The API-client collaborator: one field per method the core calls, each
giving the outcome of calling it (`Except.error e` models the call raising
`e`).  `connection_query_empty` is `connection_query(connections="")` and
`connection_query` the unfiltered `connection_query()`. -/
structure Client where
  connection_query_empty : Except Exc (List Connection)
  connection_query : Except Exc (List Connection)
  shell_start : String → Except Exc Unit
  shell_exec : String → String → Except Exc ExecResult
  fs_read : String → String → Except Exc Resp
  shell_stop : String → Except Exc Unit
  fs_blob : Except Exc String
  fs_write : String → String → String → Except Exc Unit

/-- `resolve_connection_name` (cli.py lines 11-17), with the trace of query
events it emits.  Empty name: `client.connection_query(connections="")[0]
["connection"]` — indexing an empty result list raises `IndexError`.
Non-empty name: filter by `connMatches`, stable-sort by name length, return
the first match's identifier or `None`. -/
def resolve_connection_name (client : Client) (nm : String) :
    List Ev × Except Exc (Option String) :=
  if nm = "" then
    ([.queryEmpty],
      match client.connection_query_empty with
      | .error e => .error e
      | .ok [] => .error .indexError
      | .ok (c :: _) => .ok (some c.connection))
  else
    ([.queryAll],
      match client.connection_query with
      | .error e => .error e
      | .ok all =>
        .ok ((pySortedByLen (all.filter (connMatches nm))).head?.map
          (fun x => x.connection)))

/-- Split a string at its LAST occurrence of `sep`: models
`s.rsplit(sep, 1)` followed by unpacking into exactly two variables.
`none` means no separator was present (the unpack raises `ValueError`). -/
def rsplitOnceAux (sep : Char) : List Char → Option (List Char × List Char)
  | [] => none
  | c :: cs =>
    match rsplitOnceAux sep cs with
    | some (l, r) => some (c :: l, r)
    | none => if c = sep then some ([], cs) else none

/-- String-level wrapper of `rsplitOnceAux`, modelling
`remote.rsplit(":", 1)` with 2-tuple unpacking (cli.py lines 54 and 85). -/
def rsplitOnce (sep : Char) (s : String) : Option (String × String) :=
  (rsplitOnceAux sep s.toList).map (fun p => (String.mk p.1, String.mk p.2))

/-- Python whitespace stripped by `int(str)` around the digits. -/
def isPySpace (c : Char) : Bool :=
  c = ' ' || c = '\t' || c = '\n' || c = '\r'

/-- Value of a non-empty all-digit run, accumulator style. -/
def digitsValAux (acc : Nat) : List Char → Option Nat
  | [] => some acc
  | c :: cs =>
    if c.isDigit then digitsValAux (acc * 10 + (c.toNat - 48)) cs else none

/-- Value of a non-empty list of ASCII digits; `none` on empty input or any
non-digit character. -/
def digitsVal : List Char → Option Nat
  | [] => none
  | c :: cs =>
    if c.isDigit then digitsValAux (c.toNat - 48) cs else none

/-- Models Python `int(s)` on a decimal string: surrounding ASCII
whitespace is ignored, one optional sign, then one or more digits; anything
else raises `ValueError` (here `none`).  Exotic accepted forms (digit-group
underscores, non-ASCII digits) are not modelled; no claim depends on them. -/
def pyInt (s : String) : Option Int :=
  let cs := ((s.toList.dropWhile isPySpace).reverse.dropWhile isPySpace).reverse
  match cs with
  | '-' :: rest => (digitsVal rest).map (fun n => -(n : Int))
  | '+' :: rest => (digitsVal rest).map (fun n => (n : Int))
  | rest => (digitsVal rest).map (fun n => (n : Int))

example : pyInt "  42\n" = some 42 := by decide
example : pyInt "-7" = some (-7) := by decide
example : pyInt "4a2" = none := by decide
example : pyInt "" = none := by decide

/-- The probe command built at cli.py line 62: the f-string
`f'stat -c %s \x7bremote_path\x7d'` — plain concatenation, the path is
inserted verbatim with no quoting or escaping. -/
def probeCmd (remote_path : String) : String := "stat -c %s " ++ remote_path

/-- The probed remote size, cli.py lines 61-65: `int(stat_result["stdout"])`
inside `try: ... except Exception: length = 0`.  Any raise from the exec
call or from the parse is swallowed and the length degrades to 0. -/
def probeLength (client : Client) (connection remote_path : String) : Int :=
  match client.shell_exec connection (probeCmd remote_path) with
  | .error _ => 0
  | .ok r =>
    match pyInt r.stdout with
    | some n => n
    | none => 0

/-- `int(resp.headers.get("content-length", 0))` at cli.py line 69: the
header string is parsed when present (an unparsable header raises
`ValueError`, outside any try), and the default `0` is used when absent. -/
def contentLengthOf (r : Resp) : Except Exc Int :=
  match r.contentLength with
  | none => .ok 0
  | some s =>
    match pyInt s with
    | some n => .ok n
    | none => .error .valueError

/-- Events of the copy loop at cli.py lines 72-74: for each chunk, first
`progress_bar.update(len(chunk))`, then `local.write(chunk)`. -/
def chunkEvents : List (List Nat) → List Ev
  | [] => []
  | c :: cs => .update c.length :: .write c :: chunkEvents cs

/-- cli.py lines 59-76, the part of `pull` after a successful resolve: start
the shell, probe the size (soft), create the progress bar with the probed
total, read the remote file, override the total with the content-length
header, stream the chunks to the local sink, and only then — with no
try/finally — stop the shell.  Any raise after the probe block propagates
and skips `shell_stop`. -/
def pullSession (client : Client) (connection remote_path : String) :
    List Ev × Outcome :=
  match client.shell_start connection with
  | .error e => ([.shellStart connection], .raised e)
  | .ok _ =>
    let length := probeLength client connection remote_path
    let pre := [Ev.shellStart connection,
                Ev.shellExec connection (probeCmd remote_path),
                Ev.setTotal length,
                Ev.fsRead connection remote_path]
    match client.fs_read connection remote_path with
    | .error e => (pre, .raised e)
    | .ok resp =>
      match contentLengthOf resp with
      | .error e => (pre, .raised e)
      | .ok len2 =>
        let mid := pre ++ [Ev.setTotal len2] ++ chunkEvents resp.chunks
        match resp.streamErr with
        | some e => (mid, .raised e)
        | none =>
          match client.shell_stop connection with
          | .error e => (mid ++ [Ev.shellStop connection], .raised e)
          | .ok _ => (mid ++ [Ev.shellStop connection], .ok)

/-- `pull` (cli.py lines 52-76): split the reference at the last `:`
(no `:` → the 2-tuple unpack raises `ValueError`), resolve the connection
name (a falsy result — `None` or the empty string — prints and `exit(1)`),
then run the session part. -/
def pull (client : Client) (remote : String) : List Ev × Outcome :=
  match rsplitOnce ':' remote with
  | none => ([], .raised .valueError)
  | some (connection_name, remote_path) =>
    let r := resolve_connection_name client connection_name
    match r.2 with
    | .error e => (r.1, .raised e)
    | .ok none => (r.1, .exited 1)
    | .ok (some connection) =>
      if connection = "" then (r.1, .exited 1)
      else
        let s := pullSession client connection remote_path
        (r.1 ++ s.1, s.2)

/-- cli.py lines 90-96, the part of `push` after a successful resolve:
start the shell, upload the local file as a blob, materialize it at the
remote path, stop the shell.  No try/finally: a raise from `fs_blob` or
`fs_write` skips `shell_stop`, and a raised `fs_blob` aborts before
`fs_write` is ever called. -/
def pushSession (client : Client) (connection remote_path : String) :
    List Ev × Outcome :=
  match client.shell_start connection with
  | .error e => ([.shellStart connection], .raised e)
  | .ok _ =>
    match client.fs_blob with
    | .error e => ([.shellStart connection, .fsBlob], .raised e)
    | .ok blob_id =>
      let pre := [Ev.shellStart connection, Ev.fsBlob,
                  Ev.fsWrite connection blob_id remote_path]
      match client.fs_write connection blob_id remote_path with
      | .error e => (pre, .raised e)
      | .ok _ =>
        match client.shell_stop connection with
        | .error e => (pre ++ [Ev.shellStop connection], .raised e)
        | .ok _ => (pre ++ [Ev.shellStop connection], .ok)

/-- `push` (cli.py lines 83-96): same reference parsing and resolution as
`pull`, then the push session. -/
def push (client : Client) (remote : String) : List Ev × Outcome :=
  match rsplitOnce ':' remote with
  | none => ([], .raised .valueError)
  | some (connection_name, remote_path) =>
    let r := resolve_connection_name client connection_name
    match r.2 with
    | .error e => (r.1, .raised e)
    | .ok none => (r.1, .exited 1)
    | .ok (some connection) =>
      if connection = "" then (r.1, .exited 1)
      else
        let s := pushSession client connection remote_path
        (r.1 ++ s.1, s.2)

/-- `exec` (cli.py lines 104-116, function `fs_exec`): resolve, start the
shell, run the command, print, stop the shell.  A raise from `shell_exec`
skips `shell_stop`. -/
def fs_exec (client : Client) (connection_name command : String) :
    List Ev × Outcome :=
  let r := resolve_connection_name client connection_name
  match r.2 with
  | .error e => (r.1, .raised e)
  | .ok none => (r.1, .exited 1)
  | .ok (some connection) =>
    if connection = "" then (r.1, .exited 1)
    else
      match client.shell_start connection with
      | .error e => (r.1 ++ [.shellStart connection], .raised e)
      | .ok _ =>
        match client.shell_exec connection command with
        | .error e =>
          (r.1 ++ [.shellStart connection, .shellExec connection command],
            .raised e)
        | .ok _ =>
          match client.shell_stop connection with
          | .error e =>
            (r.1 ++ [.shellStart connection, .shellExec connection command,
              .shellStop connection], .raised e)
          | .ok _ =>
            (r.1 ++ [.shellStart connection, .shellExec connection command,
              .shellStop connection], .ok)

/-- Is this event a `shell_stop` call? -/
def isStopEv : Ev → Bool
  | .shellStop _ => true
  | _ => false

/-- Is this event a `shell_start` call? -/
def isStartEv : Ev → Bool
  | .shellStart _ => true
  | _ => false

/-- Is this event an `fs_write` call? -/
def isFsWriteEv : Ev → Bool
  | .fsWrite _ _ _ => true
  | _ => false

/-- Number of `shell_stop` calls in a trace. -/
def stopsIn (tr : List Ev) : Nat := tr.countP isStopEv

/-- Number of `shell_start` calls in a trace. -/
def startsIn (tr : List Ev) : Nat := tr.countP isStartEv

/-- Number of `fs_write` calls in a trace. -/
def fsWritesIn (tr : List Ev) : Nat := tr.countP isFsWriteEv

/-- The progress-bar `update` amounts of a trace, in order. -/
def updatesOf (tr : List Ev) : List Nat :=
  tr.filterMap (fun e =>
    match e with
    | .update n => some n
    | _ => none)

/-- The chunks written to the local sink, in order. -/
def writesOf (tr : List Ev) : List (List Nat) :=
  tr.filterMap (fun e =>
    match e with
    | .write c => some c
    | _ => none)

/-- The successive values assigned to the progress-bar total, in order. -/
def totalsOf (tr : List Ev) : List Int :=
  tr.filterMap (fun e =>
    match e with
    | .setTotal n => some n
    | _ => none)

/-- The matches considered by the non-empty branch of the resolver: the
connections whose name list is non-empty and whose last segment equals the
requested name, in original query order (`filter` keeps the order). -/
def matchesFor (conns : List Connection) (nm : String) : List Connection :=
  conns.filter (connMatches nm)

/-- The first element of a list (in original order) whose name-segment
count is less than or equal to that of every element of the list — i.e.
the shortest-name match, ties broken by original order.  This is the
specification-side description of the resolver's selection policy, to be
compared with the stable-sort-and-take-head implementation. -/
def firstShortest (l : List Connection) : Option Connection :=
  l.find? (fun x => l.all (fun y => decide (x.name.length ≤ y.name.length)))

/-- First element of the list achieving the minimum name length, computed
recursively; bridge between the stable sort's head and `firstShortest`. -/
def pickFirstMin : List Connection → Option Connection
  | [] => none
  | x :: xs =>
    match pickFirstMin xs with
    | none => some x
    | some y => if x.name.length ≤ y.name.length then some x else some y

/-- Sample connection whose name has two segments and last segment "b". -/
def connX : Connection := ⟨"X", ["a", "b"], [], "ssh"⟩

/-- Sample connection whose name is the single segment "b". -/
def connY : Connection := ⟨"Y", ["b"], [], "ssh"⟩

/-- Sample default/local connection. -/
def connLocal : Connection := ⟨"LOCAL", ["local machine"], [], "local"⟩

/-- A response whose content-length header reads "7" and whose body is
delivered as a 3-byte chunk followed by a 4-byte chunk, no stream error. -/
def okResp : Resp := ⟨some "7", [[104, 105, 33], [10, 10, 10, 10]], none⟩

/-- A fully successful API client used to instantiate the theorems. -/
def okClient : Client where
  connection_query_empty := .ok [connLocal]
  connection_query := .ok [connX, connY]
  shell_start := fun _ => .ok ()
  shell_exec := fun _ _ => .ok ⟨"9\n", "", 0⟩
  fs_read := fun _ _ => .ok okResp
  shell_stop := fun _ => .ok ()
  fs_blob := .ok "blob1"
  fs_write := fun _ _ _ => .ok ()

/-- As `okClient`, but `_fs_read` raises a transport error. -/
def readFailClient : Client :=
  { okClient with fs_read := fun _ _ => .error (.transport 0) }

/-- As `okClient`, but the empty-name query returns no rows. -/
def emptyQueryClient : Client :=
  { okClient with connection_query_empty := .ok [] }

/-- As `okClient`, but the blob upload raises a transport error. -/
def blobFailClient : Client :=
  { okClient with fs_blob := .error (.transport 1) }

/-- As `okClient`, but the remote size probe raises a transport error. -/
def probeFailClient : Client :=
  { okClient with shell_exec := fun _ _ => .error (.transport 2) }

lemma stopsIn_append (a b : List Ev) : stopsIn (a ++ b) = stopsIn a + stopsIn b := by
  simp [stopsIn, List.countP_append]

lemma startsIn_append (a b : List Ev) :
    startsIn (a ++ b) = startsIn a + startsIn b := by
  simp [startsIn, List.countP_append]

lemma fsWritesIn_append (a b : List Ev) :
    fsWritesIn (a ++ b) = fsWritesIn a + fsWritesIn b := by
  simp [fsWritesIn, List.countP_append]

lemma updatesOf_append (a b : List Ev) :
    updatesOf (a ++ b) = updatesOf a ++ updatesOf b := by
  simp [updatesOf, List.filterMap_append]

lemma writesOf_append (a b : List Ev) :
    writesOf (a ++ b) = writesOf a ++ writesOf b := by
  simp [writesOf, List.filterMap_append]

lemma totalsOf_append (a b : List Ev) :
    totalsOf (a ++ b) = totalsOf a ++ totalsOf b := by
  simp [totalsOf, List.filterMap_append]

lemma stopsIn_chunkEvents (cs : List (List Nat)) : stopsIn (chunkEvents cs) = 0 := by
  induction cs with
  | nil => rfl
  | cons c cs ih => simp [chunkEvents, stopsIn, List.countP_cons, isStopEv] at ih ⊢; exact ih

lemma startsIn_chunkEvents (cs : List (List Nat)) :
    startsIn (chunkEvents cs) = 0 := by
  induction cs with
  | nil => rfl
  | cons c cs ih => simp [chunkEvents, startsIn, List.countP_cons, isStartEv] at ih ⊢; exact ih

lemma fsWritesIn_chunkEvents (cs : List (List Nat)) :
    fsWritesIn (chunkEvents cs) = 0 := by
  induction cs with
  | nil => rfl
  | cons c cs ih => simp [chunkEvents, fsWritesIn, List.countP_cons, isFsWriteEv] at ih ⊢; exact ih

lemma updatesOf_chunkEvents (cs : List (List Nat)) :
    updatesOf (chunkEvents cs) = cs.map List.length := by
  induction cs with
  | nil => rfl
  | cons c cs ih => simp [chunkEvents, updatesOf, List.filterMap_cons] at ih ⊢; exact ih

lemma writesOf_chunkEvents (cs : List (List Nat)) :
    writesOf (chunkEvents cs) = cs := by
  induction cs with
  | nil => rfl
  | cons c cs ih => simp [chunkEvents, writesOf, List.filterMap_cons] at ih ⊢; exact ih

lemma totalsOf_chunkEvents (cs : List (List Nat)) :
    totalsOf (chunkEvents cs) = [] := by
  induction cs with
  | nil => rfl
  | cons c cs ih => simp [chunkEvents, totalsOf, List.filterMap_cons] at ih ⊢; exact ih

/-- The trace of `resolve_connection_name` is a single query event. -/
lemma resolve_trace (client : Client) (nm : String) :
    (resolve_connection_name client nm).1 = [Ev.queryEmpty] ∨
    (resolve_connection_name client nm).1 = [Ev.queryAll] := by
  unfold resolve_connection_name
  by_cases h : nm = "" <;> simp [h]

lemma stopsIn_resolve (client : Client) (nm : String) :
    stopsIn (resolve_connection_name client nm).1 = 0 := by
  rcases resolve_trace client nm with h | h <;> rw [h] <;> rfl

lemma startsIn_resolve (client : Client) (nm : String) :
    startsIn (resolve_connection_name client nm).1 = 0 := by
  rcases resolve_trace client nm with h | h <;> rw [h] <;> rfl

lemma fsWritesIn_resolve (client : Client) (nm : String) :
    fsWritesIn (resolve_connection_name client nm).1 = 0 := by
  rcases resolve_trace client nm with h | h <;> rw [h] <;> rfl

lemma head?_insertByLen (x : Connection) (s : List Connection) :
    (insertByLen x s).head? =
      match s with
      | [] => some x
      | y :: _ => if x.name.length ≤ y.name.length then some x else some y := by
  cases s with
  | nil => rfl
  | cons y ys =>
    simp only [insertByLen]
    by_cases h : x.name.length ≤ y.name.length <;> simp [h]

lemma head?_pySortedByLen (l : List Connection) :
    (pySortedByLen l).head? = pickFirstMin l := by
  induction l with
  | nil => rfl
  | cons x xs ih =>
    simp only [pySortedByLen, pickFirstMin, head?_insertByLen]
    cases hs : pySortedByLen xs with
    | nil => rw [hs] at ih; simp [← ih]
    | cons y ys => rw [hs] at ih; simp [← ih]

lemma pickFirstMin_eq_none (l : List Connection) :
    pickFirstMin l = none ↔ l = [] := by
  cases l with
  | nil => simp [pickFirstMin]
  | cons x xs =>
    simp only [pickFirstMin]
    cases pickFirstMin xs with
    | none => simp
    | some y =>
      by_cases h : x.name.length ≤ y.name.length <;> simp [h]

lemma pickFirstMin_min (l : List Connection) (m : Connection)
    (h : pickFirstMin l = some m) :
    ∀ x ∈ l, m.name.length ≤ x.name.length := by
  induction l generalizing m with
  | nil => simp [pickFirstMin] at h
  | cons x xs ih =>
    simp only [pickFirstMin] at h
    cases hx : pickFirstMin xs with
    | none =>
      rw [hx] at h
      obtain rfl : x = m := by simpa using h
      have hnil : xs = [] := (pickFirstMin_eq_none xs).mp hx
      subst hnil
      simp
    | some y =>
      rw [hx] at h
      have hy := ih y hx
      by_cases hle : x.name.length ≤ y.name.length
      · obtain rfl : x = m := by simpa [hle] using h
        intro z hz
        rcases List.mem_cons.mp hz with rfl | hz
        · exact le_rfl
        · exact le_trans hle (hy z hz)
      · obtain rfl : y = m := by simpa [hle] using h
        intro z hz
        rcases List.mem_cons.mp hz with rfl | hz
        · exact le_of_not_le hle
        · exact hy z hz

lemma pickFirstMin_split (l : List Connection) (m : Connection)
    (h : pickFirstMin l = some m) :
    ∃ pre post, l = pre ++ m :: post ∧
      ∀ z ∈ pre, m.name.length < z.name.length := by
  induction l generalizing m with
  | nil => simp [pickFirstMin] at h
  | cons x xs ih =>
    simp only [pickFirstMin] at h
    cases hx : pickFirstMin xs with
    | none =>
      rw [hx] at h
      obtain rfl : x = m := by simpa using h
      exact ⟨[], xs, rfl, by simp⟩
    | some y =>
      rw [hx] at h
      by_cases hle : x.name.length ≤ y.name.length
      · obtain rfl : x = m := by simpa [hle] using h
        exact ⟨[], xs, rfl, by simp⟩
      · obtain rfl : y = m := by simpa [hle] using h
        obtain ⟨pre, post, hsplit, hpre⟩ := ih y hx
        refine ⟨x :: pre, post, by rw [hsplit]; rfl, ?_⟩
        intro z hz
        rcases List.mem_cons.mp hz with rfl | hz
        · exact lt_of_not_le hle
        · exact hpre z hz

lemma find?_prefix_false {α : Type} (p : α → Bool) (pre : List α) (m : α)
    (post : List α) (hpre : ∀ z ∈ pre, p z = false) (hm : p m = true) :
    (pre ++ m :: post).find? p = some m := by
  induction pre with
  | nil => simp [List.find?_cons, hm]
  | cons z zs ih =>
    have hz : p z = false := hpre z (by simp)
    simp only [List.cons_append, List.find?_cons, hz]
    exact ih (fun w hw => hpre w (by simp [hw]))

lemma find?_eq_some_of_split {α : Type} (p : α → Bool) (l pre post : List α)
    (m : α) (hsplit : l = pre ++ m :: post)
    (hpre : ∀ z ∈ pre, p z = false) (hm : p m = true) :
    l.find? p = some m := by
  subst hsplit
  exact find?_prefix_false p pre m post hpre hm

/-- The head of the stable sort is exactly the specification's
first-shortest match. -/
lemma head?_pySortedByLen_eq_firstShortest (l : List Connection) :
    (pySortedByLen l).head? = firstShortest l := by
  rw [head?_pySortedByLen]
  cases h : pickFirstMin l with
  | none =>
    have : l = [] := (pickFirstMin_eq_none l).mp h
    subst this
    rfl
  | some m =>
    obtain ⟨pre, post, hsplit, hpre⟩ := pickFirstMin_split l m h
    have hmin := pickFirstMin_min l m h
    have hmem : m ∈ l := by rw [hsplit]; simp
    have hm : (l.all (fun y => decide (m.name.length ≤ y.name.length))) = true := by
      rw [List.all_eq_true]
      intro y hy
      simpa using hmin y hy
    have hfalse : ∀ z ∈ pre,
        (l.all (fun y => decide (z.name.length ≤ y.name.length))) = false := by
      intro z hz
      rw [Bool.eq_false_iff]
      intro hall
      rw [List.all_eq_true] at hall
      have := hall m hmem
      simp at this
      exact absurd this (not_le.mpr (hpre z hz))
    exact (find?_eq_some_of_split _ l pre post m hsplit hfalse hm).symm

lemma rsplitOnceAux_eq_none (sep : Char) (l : List Char) :
    rsplitOnceAux sep l = none ↔ sep ∉ l := by
  induction l with
  | nil => simp [rsplitOnceAux]
  | cons c cs ih =>
    simp only [rsplitOnceAux]
    cases h : rsplitOnceAux sep cs with
    | some p =>
      have : sep ∈ cs := by
        by_contra hmem
        rw [← ih] at hmem
        rw [h] at hmem
        exact Option.noConfusion hmem
      simp [this]
    | none =>
      have hmem : sep ∉ cs := ih.mp h
      by_cases hc : c = sep
      · simp [hc]
      · simp [hc, hmem, Ne.symm hc]

lemma rsplitOnceAux_eq_some (sep : Char) (l a b : List Char)
    (h : rsplitOnceAux sep l = some (a, b)) :
    l = a ++ sep :: b ∧ sep ∉ b := by
  induction l generalizing a b with
  | nil => simp [rsplitOnceAux] at h
  | cons c cs ih =>
    simp only [rsplitOnceAux] at h
    cases hcs : rsplitOnceAux sep cs with
    | some p =>
      rw [hcs] at h
      obtain ⟨l', r⟩ := p
      simp only [Option.some.injEq, Prod.mk.injEq] at h
      obtain ⟨rfl, rfl⟩ := h
      obtain ⟨hsplit, hmem⟩ := ih _ _ hcs
      exact ⟨by rw [hsplit]; rfl, hmem⟩
    | none =>
      rw [hcs] at h
      by_cases hc : c = sep
      · simp only [hc, if_true, Option.some.injEq, Prod.mk.injEq] at h
        obtain ⟨rfl, rfl⟩ := h
        exact ⟨by simp [hc], (rsplitOnceAux_eq_none sep cs).mp hcs⟩
      · simp only [hc, if_false] at h
        exact Option.noConfusion h

lemma rsplitOnceAux_isSome (sep : Char) (l : List Char) (h : sep ∈ l) :
    ∃ p, rsplitOnceAux sep l = some p := by
  cases hx : rsplitOnceAux sep l with
  | none => exact absurd h ((rsplitOnceAux_eq_none sep l).mp hx)
  | some p => exact ⟨p, rfl⟩

lemma take_sum_le_take_succ (u : List Nat) (k : Nat) :
    (u.take k).sum ≤ (u.take (k + 1)).sum := by
  induction u generalizing k with
  | nil => simp
  | cons x xs ih =>
    cases k with
    | zero => simp
    | succ k =>
      simp only [List.take_succ_cons, List.sum_cons]
      exact Nat.add_le_add_left (ih k) x

lemma take_sum_le_sum (u : List Nat) (k : Nat) : (u.take k).sum ≤ u.sum := by
  induction u generalizing k with
  | nil => simp
  | cons x xs ih =>
    cases k with
    | zero => simp
    | succ k =>
      simp only [List.take_succ_cons, List.sum_cons]
      exact Nat.add_le_add_left (ih k) x

lemma stopsIn_nil : stopsIn [] = 0 := rfl

lemma stopsIn_cons (e : Ev) (tr : List Ev) :
    stopsIn (e :: tr) = stopsIn tr + (if isStopEv e then 1 else 0) := by
  simp [stopsIn, List.countP_cons]

lemma startsIn_nil : startsIn [] = 0 := rfl

lemma startsIn_cons (e : Ev) (tr : List Ev) :
    startsIn (e :: tr) = startsIn tr + (if isStartEv e then 1 else 0) := by
  simp [startsIn, List.countP_cons]

lemma fsWritesIn_nil : fsWritesIn [] = 0 := rfl

lemma fsWritesIn_cons (e : Ev) (tr : List Ev) :
    fsWritesIn (e :: tr) = fsWritesIn tr + (if isFsWriteEv e then 1 else 0) := by
  simp [fsWritesIn, List.countP_cons]

example (c p : String) (n : Int) :
    stopsIn [Ev.shellStart c, Ev.shellExec c p, Ev.setTotal n,
      Ev.fsRead c p, Ev.shellStop c] = 1 := by
  simp [stopsIn_cons, stopsIn_nil, isStopEv]

/-- Session-lifecycle accounting for the pull session: the stop call
happens at most once, and exactly once (with exactly one start) when the
session part returns normally. -/
lemma pullSession_stops (client : Client) (conn path : String) :
    stopsIn (pullSession client conn path).1 ≤ 1 ∧
    startsIn (pullSession client conn path).1 ≤ 1 ∧
    ((pullSession client conn path).2 = .ok →
      startsIn (pullSession client conn path).1 = 1 ∧
      stopsIn (pullSession client conn path).1 = 1) := by
  unfold pullSession
  cases h1 : client.shell_start conn with
  | error e =>
    simp [stopsIn_cons, stopsIn_nil, startsIn_cons, startsIn_nil, isStopEv, isStartEv]
  | ok u =>
    cases h2 : client.fs_read conn path with
    | error e =>
      simp [stopsIn_cons, stopsIn_nil, startsIn_cons, startsIn_nil, isStopEv, isStartEv]
    | ok resp =>
      simp only []
      cases h3 : contentLengthOf resp with
      | error e =>
        simp [stopsIn_cons, stopsIn_nil, startsIn_cons, startsIn_nil, isStopEv, isStartEv]
      | ok len2 =>
        simp only []
        cases h4 : resp.streamErr with
        | some e =>
          simp [stopsIn_cons, stopsIn_nil, startsIn_cons, startsIn_nil,
            stopsIn_append, startsIn_append, stopsIn_chunkEvents,
            startsIn_chunkEvents, isStopEv, isStartEv]
        | none =>
          simp only []
          cases h5 : client.shell_stop conn with
          | error e =>
            simp [stopsIn_cons, stopsIn_nil, startsIn_cons, startsIn_nil,
              stopsIn_append, startsIn_append, stopsIn_chunkEvents,
              startsIn_chunkEvents, isStopEv, isStartEv]
          | ok u2 =>
            simp [stopsIn_cons, stopsIn_nil, startsIn_cons, startsIn_nil,
              stopsIn_append, startsIn_append, stopsIn_chunkEvents,
              startsIn_chunkEvents, isStopEv, isStartEv]

/-- Session-lifecycle accounting for the push session. -/
lemma pushSession_stops (client : Client) (conn path : String) :
    stopsIn (pushSession client conn path).1 ≤ 1 ∧
    startsIn (pushSession client conn path).1 ≤ 1 ∧
    ((pushSession client conn path).2 = .ok →
      startsIn (pushSession client conn path).1 = 1 ∧
      stopsIn (pushSession client conn path).1 = 1) := by
  unfold pushSession
  cases h1 : client.shell_start conn with
  | error e =>
    simp [stopsIn_cons, stopsIn_nil, startsIn_cons, startsIn_nil, isStopEv, isStartEv]
  | ok u =>
    simp only []
    cases h2 : client.fs_blob with
    | error e =>
      simp [stopsIn_cons, stopsIn_nil, startsIn_cons, startsIn_nil, isStopEv, isStartEv]
    | ok blob_id =>
      simp only []
      cases h3 : client.fs_write conn blob_id path with
      | error e =>
        simp [stopsIn_cons, stopsIn_nil, startsIn_cons, startsIn_nil, isStopEv, isStartEv]
      | ok u2 =>
        simp only []
        cases h4 : client.shell_stop conn with
        | error e =>
          simp [stopsIn_cons, stopsIn_nil, startsIn_cons, startsIn_nil,
            stopsIn_append, startsIn_append, isStopEv, isStartEv]
        | ok u3 =>
          simp [stopsIn_cons, stopsIn_nil, startsIn_cons, startsIn_nil,
            stopsIn_append, startsIn_append, isStopEv, isStartEv]

/-- Session-lifecycle accounting for the whole `pull` command. -/
lemma pull_stops (client : Client) (remote : String) :
    stopsIn (pull client remote).1 ≤ 1 ∧
    ((pull client remote).2 = .ok →
      startsIn (pull client remote).1 = 1 ∧ stopsIn (pull client remote).1 = 1) := by
  simp only [pull]
  cases h : rsplitOnce ':' remote with
  | none => simp [stopsIn_nil, startsIn_nil]
  | some p =>
    obtain ⟨cn, rp⟩ := p
    simp only []
    cases hr : (resolve_connection_name client cn).2 with
    | error e => simp [stopsIn_resolve, startsIn_resolve]
    | ok conn? =>
      cases conn? with
      | none => simp [stopsIn_resolve, startsIn_resolve]
      | some conn =>
        simp only []
        by_cases hc : conn = ""
        · simp [hc, stopsIn_resolve, startsIn_resolve]
        · have hps := pullSession_stops client conn rp
          simp only [hc, if_false, stopsIn_append, startsIn_append,
            stopsIn_resolve, startsIn_resolve, Nat.zero_add]
          exact ⟨hps.1, hps.2.2⟩

/-- Session-lifecycle accounting for the whole `push` command. -/
lemma push_stops (client : Client) (remote : String) :
    stopsIn (push client remote).1 ≤ 1 ∧
    ((push client remote).2 = .ok →
      startsIn (push client remote).1 = 1 ∧ stopsIn (push client remote).1 = 1) := by
  simp only [push]
  cases h : rsplitOnce ':' remote with
  | none => simp [stopsIn_nil, startsIn_nil]
  | some p =>
    obtain ⟨cn, rp⟩ := p
    simp only []
    cases hr : (resolve_connection_name client cn).2 with
    | error e => simp [stopsIn_resolve, startsIn_resolve]
    | ok conn? =>
      cases conn? with
      | none => simp [stopsIn_resolve, startsIn_resolve]
      | some conn =>
        simp only []
        by_cases hc : conn = ""
        · simp [hc, stopsIn_resolve, startsIn_resolve]
        · have hps := pushSession_stops client conn rp
          simp only [hc, if_false, stopsIn_append, startsIn_append,
            stopsIn_resolve, startsIn_resolve, Nat.zero_add]
          exact ⟨hps.1, hps.2.2⟩

/-- Session-lifecycle accounting for the whole `exec` command. -/
lemma fs_exec_stops (client : Client) (cname cmd : String) :
    stopsIn (fs_exec client cname cmd).1 ≤ 1 ∧
    ((fs_exec client cname cmd).2 = .ok →
      startsIn (fs_exec client cname cmd).1 = 1 ∧
      stopsIn (fs_exec client cname cmd).1 = 1) := by
  simp only [fs_exec]
  cases hr : (resolve_connection_name client cname).2 with
  | error e => simp [stopsIn_resolve, startsIn_resolve]
  | ok conn? =>
    cases conn? with
    | none => simp [stopsIn_resolve, startsIn_resolve]
    | some conn =>
      simp only []
      by_cases hc : conn = ""
      · simp [hc, stopsIn_resolve, startsIn_resolve]
      · simp only [hc, if_false]
        cases h1 : client.shell_start conn with
        | error e =>
          simp [stopsIn_append, startsIn_append, stopsIn_resolve, startsIn_resolve,
            stopsIn_cons, stopsIn_nil, startsIn_cons, startsIn_nil, isStopEv, isStartEv]
        | ok u =>
          simp only []
          cases h2 : client.shell_exec conn cmd with
          | error e =>
            simp [stopsIn_append, startsIn_append, stopsIn_resolve, startsIn_resolve,
              stopsIn_cons, stopsIn_nil, startsIn_cons, startsIn_nil, isStopEv, isStartEv]
          | ok res =>
            simp only []
            cases h3 : client.shell_stop conn with
            | error e =>
              simp [stopsIn_append, startsIn_append, stopsIn_resolve, startsIn_resolve,
                stopsIn_cons, stopsIn_nil, startsIn_cons, startsIn_nil, isStopEv, isStartEv]
            | ok u2 =>
              simp [stopsIn_append, startsIn_append, stopsIn_resolve, startsIn_resolve,
                stopsIn_cons, stopsIn_nil, startsIn_cons, startsIn_nil, isStopEv, isStartEv]

lemma updatesOf_nil : updatesOf [] = [] := rfl

lemma updatesOf_cons_start (c : String) (tr : List Ev) :
    updatesOf (Ev.shellStart c :: tr) = updatesOf tr := by
  simp [updatesOf, List.filterMap_cons]

lemma updatesOf_cons_exec (c m : String) (tr : List Ev) :
    updatesOf (Ev.shellExec c m :: tr) = updatesOf tr := by
  simp [updatesOf, List.filterMap_cons]

lemma updatesOf_cons_total (n : Int) (tr : List Ev) :
    updatesOf (Ev.setTotal n :: tr) = updatesOf tr := by
  simp [updatesOf, List.filterMap_cons]

lemma updatesOf_cons_read (c p : String) (tr : List Ev) :
    updatesOf (Ev.fsRead c p :: tr) = updatesOf tr := by
  simp [updatesOf, List.filterMap_cons]

lemma updatesOf_cons_stop (c : String) (tr : List Ev) :
    updatesOf (Ev.shellStop c :: tr) = updatesOf tr := by
  simp [updatesOf, List.filterMap_cons]

lemma writesOf_nil : writesOf [] = [] := rfl

lemma writesOf_cons_start (c : String) (tr : List Ev) :
    writesOf (Ev.shellStart c :: tr) = writesOf tr := by
  simp [writesOf, List.filterMap_cons]

lemma writesOf_cons_exec (c m : String) (tr : List Ev) :
    writesOf (Ev.shellExec c m :: tr) = writesOf tr := by
  simp [writesOf, List.filterMap_cons]

lemma writesOf_cons_total (n : Int) (tr : List Ev) :
    writesOf (Ev.setTotal n :: tr) = writesOf tr := by
  simp [writesOf, List.filterMap_cons]

lemma writesOf_cons_read (c p : String) (tr : List Ev) :
    writesOf (Ev.fsRead c p :: tr) = writesOf tr := by
  simp [writesOf, List.filterMap_cons]

lemma writesOf_cons_stop (c : String) (tr : List Ev) :
    writesOf (Ev.shellStop c :: tr) = writesOf tr := by
  simp [writesOf, List.filterMap_cons]

lemma totalsOf_nil : totalsOf [] = [] := rfl

lemma totalsOf_cons_start (c : String) (tr : List Ev) :
    totalsOf (Ev.shellStart c :: tr) = totalsOf tr := by
  simp [totalsOf, List.filterMap_cons]

lemma totalsOf_cons_exec (c m : String) (tr : List Ev) :
    totalsOf (Ev.shellExec c m :: tr) = totalsOf tr := by
  simp [totalsOf, List.filterMap_cons]

lemma totalsOf_cons_total (n : Int) (tr : List Ev) :
    totalsOf (Ev.setTotal n :: tr) = n :: totalsOf tr := by
  simp [totalsOf, List.filterMap_cons]

lemma totalsOf_cons_read (c p : String) (tr : List Ev) :
    totalsOf (Ev.fsRead c p :: tr) = totalsOf tr := by
  simp [totalsOf, List.filterMap_cons]

lemma totalsOf_cons_stop (c : String) (tr : List Ev) :
    totalsOf (Ev.shellStop c :: tr) = totalsOf tr := by
  simp [totalsOf, List.filterMap_cons]

/-- Shape of the pull-session trace once the remote read succeeded and the
content-length value parsed: the five fixed events, then the per-chunk
update/write pairs, then — only when the stream completes without raising —
the stop call. -/
lemma pullSession_trace (client : Client) (conn path : String) (resp : Resp)
    (L : Int) (h1 : client.shell_start conn = .ok ())
    (h2 : client.fs_read conn path = .ok resp)
    (h3 : contentLengthOf resp = .ok L) :
    ∃ tail,
      (pullSession client conn path).1 =
        Ev.shellStart conn :: Ev.shellExec conn (probeCmd path) ::
        Ev.setTotal (probeLength client conn path) :: Ev.fsRead conn path ::
        Ev.setTotal L :: (chunkEvents resp.chunks ++ tail) ∧
      (tail = [] ∨ tail = [Ev.shellStop conn]) := by
  unfold pullSession
  simp only [h1, h2, h3]
  cases h4 : resp.streamErr with
  | some e => exact ⟨[], by simp, Or.inl rfl⟩
  | none =>
    cases h5 : client.shell_stop conn with
    | error e => exact ⟨[Ev.shellStop conn], by simp, Or.inr rfl⟩
    | ok u => exact ⟨[Ev.shellStop conn], by simp, Or.inr rfl⟩

/-- The update events of a pull session are exactly one per chunk, carrying
the chunk's length. -/
lemma pullSession_updates (client : Client) (conn path : String) (resp : Resp)
    (L : Int) (h1 : client.shell_start conn = .ok ())
    (h2 : client.fs_read conn path = .ok resp)
    (h3 : contentLengthOf resp = .ok L) :
    updatesOf (pullSession client conn path).1 = resp.chunks.map List.length := by
  obtain ⟨tail, htr, htail⟩ := pullSession_trace client conn path resp L h1 h2 h3
  rw [htr]
  have htl : updatesOf tail = [] := by
    rcases htail with rfl | rfl
    · rfl
    · simp [updatesOf_cons_stop, updatesOf_nil]
  simp [updatesOf_cons_start, updatesOf_cons_exec, updatesOf_cons_total,
    updatesOf_cons_read, updatesOf_append, updatesOf_chunkEvents, htl]

/-- The write events of a pull session are exactly the response's chunks,
in order. -/
lemma pullSession_writes (client : Client) (conn path : String) (resp : Resp)
    (L : Int) (h1 : client.shell_start conn = .ok ())
    (h2 : client.fs_read conn path = .ok resp)
    (h3 : contentLengthOf resp = .ok L) :
    writesOf (pullSession client conn path).1 = resp.chunks := by
  obtain ⟨tail, htr, htail⟩ := pullSession_trace client conn path resp L h1 h2 h3
  rw [htr]
  have htl : writesOf tail = [] := by
    rcases htail with rfl | rfl
    · rfl
    · simp [writesOf_cons_stop, writesOf_nil]
  simp [writesOf_cons_start, writesOf_cons_exec, writesOf_cons_total,
    writesOf_cons_read, writesOf_append, writesOf_chunkEvents, htl]

/-- The progress-bar totals of a pull session: first the probed length,
then the content-length value. -/
lemma pullSession_totals (client : Client) (conn path : String) (resp : Resp)
    (L : Int) (h1 : client.shell_start conn = .ok ())
    (h2 : client.fs_read conn path = .ok resp)
    (h3 : contentLengthOf resp = .ok L) :
    totalsOf (pullSession client conn path).1 =
      [probeLength client conn path, L] := by
  obtain ⟨tail, htr, htail⟩ := pullSession_trace client conn path resp L h1 h2 h3
  rw [htr]
  have htl : totalsOf tail = [] := by
    rcases htail with rfl | rfl
    · rfl
    · simp [totalsOf_cons_stop, totalsOf_nil]
  simp [totalsOf_cons_start, totalsOf_cons_exec, totalsOf_cons_total,
    totalsOf_cons_read, totalsOf_append, totalsOf_chunkEvents, htl]

/-- Whatever the probe and later steps do, a started pull session always
reaches the `_fs_read` call, and the probe exec event carries the verbatim
probe command. -/
lemma pullSession_mem (client : Client) (conn path : String)
    (h1 : client.shell_start conn = .ok ()) :
    Ev.fsRead conn path ∈ (pullSession client conn path).1 ∧
    Ev.shellExec conn (probeCmd path) ∈ (pullSession client conn path).1 := by
  unfold pullSession
  simp only [h1]
  cases h2 : client.fs_read conn path with
  | error e => simp
  | ok resp =>
    simp only []
    cases h3 : contentLengthOf resp with
    | error e => simp
    | ok len2 =>
      simp only []
      cases h4 : resp.streamErr with
      | some e => simp
      | none =>
        simp only []
        cases h5 : client.shell_stop conn with
        | error e => simp
        | ok u => simp

/-- Claim C2: for every non-empty name and every connection list returned
by the backend, the resolver returns, among the connections whose name
sequence is non-empty and whose last segment equals the given name exactly,
the identifier of the first one (in original query order) with the fewest
name segments (`firstShortest`, the spec-side selection policy); and it
returns `none` when no connection's last segment matches. -/
theorem resolve_shortest_match (client : Client) (nm : String)
    (conns : List Connection) (hnm : nm ≠ "")
    (hq : client.connection_query = .ok conns) :
    (resolve_connection_name client nm).2 =
      .ok ((firstShortest (matchesFor conns nm)).map (fun x => x.connection)) ∧
    (matchesFor conns nm = [] →
      (resolve_connection_name client nm).2 = .ok none) ∧
    (∀ m, firstShortest (matchesFor conns nm) = some m →
      m ∈ matchesFor conns nm ∧
      ∀ z ∈ matchesFor conns nm, m.name.length ≤ z.name.length) := by
  have h1 : (resolve_connection_name client nm).2 =
      .ok ((firstShortest (matchesFor conns nm)).map (fun x => x.connection)) := by
    unfold resolve_connection_name
    rw [if_neg hnm]
    simp only [hq, matchesFor]
    rw [head?_pySortedByLen_eq_firstShortest]
  refine ⟨h1, ?_, ?_⟩
  · intro h
    rw [h1, h]
    rfl
  · intro m hm
    have hmem : m ∈ matchesFor conns nm := List.mem_of_find?_eq_some hm
    have hp := List.find?_some hm
    rw [List.all_eq_true] at hp
    exact ⟨hmem, fun z hz => by simpa using hp z hz⟩

/-- Witness for C2 at the spec's own example: connections
`[(name ["a","b"], id "X"), (name ["b"], id "Y")]`, resolving "b" matches
both and returns "Y", the one with the single-segment name. -/
theorem resolve_shortest_match_witness :
    (resolve_connection_name okClient "b").2 = .ok (some "Y") := by
  have h := (resolve_shortest_match okClient "b" [connX, connY]
    (by decide) rfl).1
  rw [h]
  rfl

/-- Claim C3 counterexample: with a backend whose empty-name query returns
no rows, resolving the empty name raises an uncaught `IndexError` (from
`[0]` on the empty result list) instead of producing the caller-visible
none/not-found outcome `Except.ok none` that the claim asserts. -/
theorem resolve_empty_crash_cex :
    (resolve_connection_name emptyQueryClient "").2 =
      .error Exc.indexError := rfl

/-- Claim C3 (amended): resolving the empty name returns the identifier of
the first connection returned by the empty-name query; but if that query
returns no rows, resolution raises an uncaught `IndexError` rather than
failing with a caller-visible none/not-found outcome. -/
theorem resolve_empty_amended (client : Client) (c : Connection)
    (rest : List Connection) :
    (client.connection_query_empty = .ok (c :: rest) →
      (resolve_connection_name client "").2 = .ok (some c.connection)) ∧
    (client.connection_query_empty = .ok [] →
      (resolve_connection_name client "").2 = .error Exc.indexError) := by
  constructor <;> intro h <;> unfold resolve_connection_name <;> simp [h]

/-- Witness for the amended C3: a client whose empty-name query returns the
local connection resolves the empty name to its identifier. -/
theorem resolve_empty_amended_witness :
    (resolve_connection_name okClient "").2 = .ok (some "LOCAL") :=
  (resolve_empty_amended okClient connLocal []).1 rfl

/-- Claim C1 counterexample: with a client whose `_fs_read` raises, `pull`
starts the shell session but the raise propagates past line 76, so
`shell_stop` is never invoked — the stop call is skipped on this thrown
failure between start and stop, contradicting "stop is invoked exactly
once on every exit path". -/
theorem session_stop_skipped_cex :
    startsIn (pull readFailClient "b:/x").1 = 1 ∧
    stopsIn (pull readFailClient "b:/x").1 = 0 ∧
    (pull readFailClient "b:/x").2 = .raised (.transport 0) := by
  refine ⟨?_, ?_, ?_⟩ <;> rfl

/-- Claim C1 (amended): in pull, push and exec the session stop call is
invoked at most once, and exactly once (matching the single start) when the
operation returns successfully; on a thrown failure between start and stop
the stop call is skipped (see the counterexample), so failed transfers leak
the session. -/
theorem session_stop_amended (client : Client) (remote cname cmd : String) :
    (stopsIn (pull client remote).1 ≤ 1 ∧
      ((pull client remote).2 = .ok →
        startsIn (pull client remote).1 = 1 ∧
        stopsIn (pull client remote).1 = 1)) ∧
    (stopsIn (push client remote).1 ≤ 1 ∧
      ((push client remote).2 = .ok →
        startsIn (push client remote).1 = 1 ∧
        stopsIn (push client remote).1 = 1)) ∧
    (stopsIn (fs_exec client cname cmd).1 ≤ 1 ∧
      ((fs_exec client cname cmd).2 = .ok →
        startsIn (fs_exec client cname cmd).1 = 1 ∧
        stopsIn (fs_exec client cname cmd).1 = 1)) :=
  ⟨pull_stops client remote, push_stops client remote,
    fs_exec_stops client cname cmd⟩

/-- Witness for the amended C1: on a fully successful pull the session is
started once and stopped once. -/
theorem session_stop_amended_witness :
    startsIn (pull okClient "b:/x").1 = 1 ∧
    stopsIn (pull okClient "b:/x").1 = 1 :=
  ((session_stop_amended okClient "b:/x" "" "").1).2 (by rfl)

/-- Claim C4: every `connectionRef` given to pull or push is split at its
LAST colon into (connection name, remote path); a reference containing no
colon makes both operations fail up front (the 2-tuple unpack of
`rsplit(":", 1)` raises `ValueError` — the InvalidReference outcome) with
nothing attempted. -/
theorem split_last_colon (client : Client) (s : String) :
    (':' ∉ s.toList →
      pull client s = ([], .raised .valueError) ∧
      push client s = ([], .raised .valueError)) ∧
    (∀ a b, rsplitOnce ':' s = some (a, b) →
      s = a ++ ":" ++ b ∧ ':' ∉ b.toList) ∧
    (':' ∈ s.toList → ∃ a b, rsplitOnce ':' s = some (a, b)) := by
  refine ⟨?_, ?_, ?_⟩
  · intro h
    have hnone : rsplitOnce ':' s = none := by
      unfold rsplitOnce
      rw [(rsplitOnceAux_eq_none ':' s.toList).mpr h]
      rfl
    constructor
    · simp only [pull, hnone]
    · simp only [push, hnone]
  · intro a b hab
    unfold rsplitOnce at hab
    rcases Option.map_eq_some'.mp hab with ⟨⟨l, r⟩, haux, hmk⟩
    obtain ⟨rfl, rfl⟩ : String.mk l = a ∧ String.mk r = b := by
      constructor <;> simp_all
    obtain ⟨hsplit, hmem⟩ := rsplitOnceAux_eq_some ':' s.toList l r haux
    constructor
    · apply String.ext
      rw [show (String.mk l ++ ":" ++ String.mk r).data = l ++ ':' :: r by
        simp [String.data_append]]
      exact hsplit
    · simpa [String.toList] using hmem
  · intro h
    obtain ⟨⟨l, r⟩, hp⟩ := rsplitOnceAux_isSome ':' s.toList h
    refine ⟨String.mk l, String.mk r, ?_⟩
    unfold rsplitOnce
    rw [hp]
    rfl

/-- Witness for C4: a colon-free reference fails both operations with the
unpack failure, and a two-colon reference splits at the last colon. -/
theorem split_last_colon_witness :
    pull okClient "nocolon" = ([], .raised .valueError) ∧
    ("a:b:c" = "a:b" ++ ":" ++ "c" ∧ ':' ∉ "c".toList) := by
  constructor
  · exact ((split_last_colon okClient "nocolon").1 (by decide)).1
  · exact (split_last_colon okClient "a:b:c").2.1 "a:b" "c" (by decide)

/-- `fs_write` accounting for the push session when the blob upload
raises: the write call is never reached and the session part fails. -/
lemma pushSession_no_write (client : Client) (conn path : String) (e : Exc)
    (hb : client.fs_blob = .error e) :
    fsWritesIn (pushSession client conn path).1 = 0 ∧
    (pushSession client conn path).2 ≠ .ok := by
  unfold pushSession
  cases h1 : client.shell_start conn with
  | error e2 =>
    simp [fsWritesIn_cons, fsWritesIn_nil, isFsWriteEv]
  | ok u =>
    simp only [hb]
    simp [fsWritesIn_cons, fsWritesIn_nil, isFsWriteEv]

/-- Claim C8: for every push, if the blob upload step raises, the remote
write (`fs_write`) is never invoked, and the push never returns
successfully — the operation aborts before any remote write is attempted. -/
theorem push_no_write_after_failed_upload (client : Client) (remote : String)
    (e : Exc) (hb : client.fs_blob = .error e) :
    fsWritesIn (push client remote).1 = 0 ∧ (push client remote).2 ≠ .ok := by
  simp only [push]
  cases h : rsplitOnce ':' remote with
  | none => simp [fsWritesIn_nil]
  | some p =>
    obtain ⟨cn, rp⟩ := p
    simp only []
    cases hr : (resolve_connection_name client cn).2 with
    | error e2 => simp [fsWritesIn_resolve]
    | ok conn? =>
      cases conn? with
      | none => simp [fsWritesIn_resolve]
      | some conn =>
        simp only []
        by_cases hc : conn = ""
        · simp [hc, fsWritesIn_resolve]
        · have hps := pushSession_no_write client conn rp e hb
          simp only [hc, if_false, fsWritesIn_append, fsWritesIn_resolve,
            Nat.zero_add]
          exact hps

/-- Witness for C8: with a client whose blob upload raises, the push trace
contains no `fs_write` call and the push does not succeed. -/
theorem push_no_write_witness :
    fsWritesIn (push blobFailClient "b:/x").1 = 0 ∧
    (push blobFailClient "b:/x").2 ≠ .ok :=
  push_no_write_after_failed_upload blobFailClient "b:/x" (.transport 1) rfl

/-- Claim C5: throughout a pull, the transferred count — the running sum of
the update amounts — is updated exactly once per chunk (one update event per
chunk, carrying its length), is monotonically increasing, and never exceeds
the total `L` reported by the transport whenever the delivered bytes indeed
total `L` (HTTP framing: the body of a response with a content-length
header has exactly that many bytes). -/
theorem progress_monotone_once_per_chunk (client : Client)
    (conn path : String) (resp : Resp) (L : Int)
    (h1 : client.shell_start conn = .ok ())
    (h2 : client.fs_read conn path = .ok resp)
    (h3 : contentLengthOf resp = .ok L) :
    updatesOf (pullSession client conn path).1 = resp.chunks.map List.length ∧
    (∀ k, ((updatesOf (pullSession client conn path).1).take k).sum ≤
      ((updatesOf (pullSession client conn path).1).take (k + 1)).sum) ∧
    (((resp.chunks.map List.length).sum : Int) = L →
      ∀ k,
        (((updatesOf (pullSession client conn path).1).take k).sum : Int)
          ≤ L) := by
  have hu := pullSession_updates client conn path resp L h1 h2 h3
  refine ⟨hu, fun k => take_sum_le_take_succ _ k, fun hsum k => ?_⟩
  rw [hu, ← hsum]
  exact_mod_cast take_sum_le_sum (resp.chunks.map List.length) k

/-- Witness for C5 on a concrete successful pull: two chunks give updates
[3, 4], prefix sums are monotone, and no prefix exceeds the total 7. -/
theorem progress_monotone_witness :
    updatesOf (pullSession okClient "Y" "/x").1 = [3, 4] ∧
    ((updatesOf (pullSession okClient "Y" "/x").1).take 1).sum ≤
      ((updatesOf (pullSession okClient "Y" "/x").1).take 2).sum ∧
    (((updatesOf (pullSession okClient "Y" "/x").1).take 1).sum : Int) ≤ 7 := by
  have h := progress_monotone_once_per_chunk okClient "Y" "/x" okResp 7
    rfl rfl rfl
  exact ⟨h.1, h.2.1 1, h.2.2 rfl 1⟩

/-- Claim C6: when the transport exposes a content-length header parsing to
`L`, the successive progress-bar totals of the pull are exactly
[probed length, L]: the probed length serves as the total until the
transport-reported length is available, and the latter then overrides it
(even if the two differ). -/
theorem transport_length_overrides (client : Client) (conn path : String)
    (resp : Resp) (s : String) (L : Int)
    (h1 : client.shell_start conn = .ok ())
    (h2 : client.fs_read conn path = .ok resp)
    (hh : resp.contentLength = some s) (hL : pyInt s = some L) :
    totalsOf (pullSession client conn path).1 =
      [probeLength client conn path, L] := by
  have h3 : contentLengthOf resp = .ok L := by
    simp [contentLengthOf, hh, hL]
  exact pullSession_totals client conn path resp L h1 h2 h3

/-- Witness for C6: probed size 9, content-length header "7" — the totals
are [9, 7]: the transport-reported 7 overrides the probed 9. -/
theorem transport_length_overrides_witness :
    totalsOf (pullSession okClient "Y" "/x").1 = [9, 7] :=
  transport_length_overrides okClient "Y" "/x" okResp "7" 7 rfl rfl rfl rfl

/-- Claim C7: for a pull of a remote stream whose chunks concatenate to the
byte sequence B (any chunking), the local sink receives exactly B — every
chunk written, in order, nothing else — and the final transferred count
equals B's length. -/
theorem pull_delivers_all_bytes (client : Client) (conn path : String)
    (resp : Resp) (L : Int) (B : List Nat)
    (h1 : client.shell_start conn = .ok ())
    (h2 : client.fs_read conn path = .ok resp)
    (h3 : contentLengthOf resp = .ok L)
    (hB : resp.chunks.join = B) :
    (writesOf (pullSession client conn path).1).join = B ∧
    writesOf (pullSession client conn path).1 = resp.chunks ∧
    (updatesOf (pullSession client conn path).1).sum = B.length := by
  have hw := pullSession_writes client conn path resp L h1 h2 h3
  have hu := pullSession_updates client conn path resp L h1 h2 h3
  refine ⟨by rw [hw, hB], hw, ?_⟩
  rw [hu, ← hB]
  exact (List.length_join resp.chunks).symm

/-- Witness for C7: the concrete 7-byte stream delivered as 3+4 chunks
arrives in the sink intact and the final transferred count is 7. -/
theorem pull_delivers_witness :
    (writesOf (pullSession okClient "Y" "/x").1).join =
      [104, 105, 33, 10, 10, 10, 10] ∧
    (updatesOf (pullSession okClient "Y" "/x").1).sum = 7 := by
  have h := pull_delivers_all_bytes okClient "Y" "/x" okResp 7
    [104, 105, 33, 10, 10, 10, 10] rfl rfl rfl rfl
  exact ⟨h.1, h.2.2⟩

/-- Claim C9: any failure of the remote size probe is swallowed: if the
probe exec raises, or if its stdout does not parse as an integer, the
probed length degrades to 0, the failure never propagates, and a started
pull session still proceeds to the remote read. -/
theorem probe_failure_swallowed (client : Client) (conn path : String) :
    (∀ e, client.shell_exec conn (probeCmd path) = .error e →
      probeLength client conn path = 0) ∧
    (∀ r, client.shell_exec conn (probeCmd path) = .ok r →
      pyInt r.stdout = none → probeLength client conn path = 0) ∧
    (client.shell_start conn = .ok () →
      Ev.fsRead conn path ∈ (pullSession client conn path).1) := by
  refine ⟨?_, ?_, ?_⟩
  · intro e he
    simp [probeLength, he]
  · intro r hr hp
    simp [probeLength, hr, hp]
  · intro h1
    exact (pullSession_mem client conn path h1).1

/-- Witness for C9: a client whose probe exec raises still reaches the
remote read, with probed length 0. -/
theorem probe_failure_witness :
    probeLength probeFailClient "Y" "/x" = 0 ∧
    Ev.fsRead "Y" "/x" ∈ (pullSession probeFailClient "Y" "/x").1 := by
  have h := probe_failure_swallowed probeFailClient "Y" "/x"
  exact ⟨h.1 (.transport 2) rfl, h.2.2 rfl⟩

/-- Claim C10: the pull size probe executes in the remote shell exactly the
string "stat -c %s " concatenated with the user-supplied remote path,
inserted verbatim with no quoting or escaping, and a started pull session
records exactly that exec call. -/
theorem probe_command_verbatim (client : Client) (conn path : String) :
    probeCmd path = "stat -c %s " ++ path ∧
    (client.shell_start conn = .ok () →
      Ev.shellExec conn ("stat -c %s " ++ path) ∈
        (pullSession client conn path).1) := by
  refine ⟨rfl, fun h1 => ?_⟩
  have h := (pullSession_mem client conn path h1).2
  simpa [probeCmd] using h

/-- Witness for C10 at a concrete path. -/
theorem probe_command_witness :
    probeCmd "/x" = "stat -c %s " ++ "/x" ∧
    Ev.shellExec "Y" ("stat -c %s " ++ "/x") ∈
      (pullSession okClient "Y" "/x").1 := by
  have h := probe_command_verbatim okClient "Y" "/x"
  exact ⟨h.1, h.2 rfl⟩

end XPipe
